import Mathlib

/-!
Verification of the pyralog distributed log store.

This file shallowly embeds the core of the pyralog source (the epoch /
sequencer subsystem, the quorum and replication-progress tracking, the
copyset selector, the on-disk segment and index, the log storage engine,
and the Raft RPC handlers) as executable Lean definitions, and proves or
refutes the specification claims about them.

Modelling conventions:
- Rust `u64` / `u32` / `usize` values are `Nat`s; where the source wraps
  or saturates explicitly (shifts into a fixed width, `saturating_add`)
  the truncation is written out (`% 2^64`, `min _ (2^64 - 1)`).
- `HashMap` / `HashSet` / `BTreeMap` are association lists with
  insert-replaces-existing-key semantics.
- Randomness (`shuffle`, `choose`) is modelled by explicit parameters: a
  caller-supplied permutation and a choice index reduced modulo the
  slice length.
- File-system side effects (open, fsync) have no in-memory effect and
  are dropped; fallible operations return `Except`/`Option`, and `none`
  marks a path on which the source panics or never terminates.
-/

namespace Pyralog

/-- Number of distinct `u64` values. -/
def u64Size : Nat := 2 ^ 64

/-- Largest `u64` value (`u64::MAX`). -/
def u64Max : Nat := 2 ^ 64 - 1

/-- Number of distinct `u32` values. -/
def u32Size : Nat := 2 ^ 32

/-! ## `pyralog-core/src/epoch.rs` -/

/-- `Epoch::FIRST` (`epoch.rs`): the first live epoch is 1. -/
def Epoch.FIRST : Nat := 1

/-- `Epoch::next` (`epoch.rs`): `self.0.saturating_add(1)` on `u64`. -/
def Epoch.next (e : Nat) : Nat := min (e + 1) u64Max

/-- `EpochOffset` (`epoch.rs`): an epoch (u64 in the struct) and a u32
offset within the epoch. -/
structure EpochOffset where
  epoch : Nat
  offset : Nat
deriving DecidableEq, Repr

/-- `EpochOffset::from_lsn` (`epoch.rs`): epoch is `lsn >> 32`, offset is
`lsn & 0xFFFFFFFF`. -/
def EpochOffset.from_lsn (lsn : Nat) : EpochOffset :=
  { epoch := lsn >>> 32, offset := lsn &&& 0xFFFFFFFF }

/-- `EpochOffset::to_lsn` (`epoch.rs`): `(self.epoch.0 << 32) | (self.offset as u64)`.
The shift is a `u64` shift, so bits of the epoch at or above 2^32 are
discarded; the truncation is the explicit `% 2^64`. -/
def EpochOffset.to_lsn (eo : EpochOffset) : Nat :=
  ((eo.epoch <<< 32) % u64Size) ||| eo.offset

/-- The lexicographic order on `(epoch, offset)` pairs that the spec
asserts the LSN packing realises. -/
def EpochOffset.lexLt (a b : EpochOffset) : Prop :=
  a.epoch < b.epoch ∨ (a.epoch = b.epoch ∧ a.offset < b.offset)

instance (a b : EpochOffset) : Decidable (a.lexLt b) :=
  inferInstanceAs (Decidable (a.epoch < b.epoch ∨ (a.epoch = b.epoch ∧ a.offset < b.offset)))

/-- `EpochMetadata` (`epoch.rs`). -/
structure EpochMetadata where
  current_epoch : Nat
  sequencer_node : Nat
  start_offset : Nat
  sealed : Bool
  last_known_offset : Option Nat
deriving DecidableEq, Repr

/-- `EpochMetadata::new` (`epoch.rs`). -/
def EpochMetadata.new (epoch sequencer_node start_offset : Nat) : EpochMetadata :=
  { current_epoch := epoch, sequencer_node := sequencer_node,
    start_offset := start_offset, sealed := false, last_known_offset := none }

/-- `EpochMetadata::seal` (`epoch.rs`). -/
def EpochMetadata.seal (m : EpochMetadata) (last_offset : Nat) : EpochMetadata :=
  { m with sealed := true, last_known_offset := some last_offset }

/-- `EpochMetadata::can_write` (`epoch.rs`). -/
def EpochMetadata.can_write (m : EpochMetadata) : Bool := !m.sealed

/-- `EpochStore` (`epoch.rs`): an ordered list of epoch metadata. -/
structure EpochStore where
  epochs : List EpochMetadata
deriving DecidableEq, Repr

/-- `EpochStore::new` (`epoch.rs`). -/
def EpochStore.new : EpochStore := ⟨[]⟩

/-- `EpochStore::start_epoch` (`epoch.rs`): the new epoch number is the
successor of the last stored epoch (`Epoch::FIRST` on an empty store);
the metadata is pushed at the end. Returns the new epoch and the
updated store. -/
def EpochStore.start_epoch (s : EpochStore) (sequencer_node start_offset : Nat) :
    Nat × EpochStore :=
  let epoch := match s.epochs.getLast? with
    | some last => Epoch.next last.current_epoch
    | none => Epoch.FIRST
  (epoch, ⟨s.epochs ++ [EpochMetadata.new epoch sequencer_node start_offset]⟩)

/-- `EpochStore::get_epoch` (`epoch.rs`): first metadata with the given
epoch number. -/
def EpochStore.get_epoch (s : EpochStore) (epoch : Nat) : Option EpochMetadata :=
  s.epochs.find? (fun m => m.current_epoch == epoch)

/-- `EpochStore::current_epoch` (`epoch.rs`): the last epoch in the store. -/
def EpochStore.current_epoch (s : EpochStore) : Option Nat :=
  s.epochs.getLast?.map (·.current_epoch)

/-- Helper for `EpochStore::seal_epoch`: seal the first entry with the
given epoch number (`get_epoch_mut` is `iter_mut().find(..)`), `none`
when there is no such entry. -/
def sealFirst (epoch last_offset : Nat) : List EpochMetadata → Option (List EpochMetadata)
  | [] => none
  | m :: rest =>
    if m.current_epoch == epoch then some (m.seal last_offset :: rest)
    else (sealFirst epoch last_offset rest).map (m :: ·)

/-- `EpochStore::seal_epoch` (`epoch.rs`): seals the first matching epoch
and returns `true`, or leaves the store unchanged and returns `false`. -/
def EpochStore.seal_epoch (s : EpochStore) (epoch last_offset : Nat) : Bool × EpochStore :=
  match sealFirst epoch last_offset s.epochs with
  | some es => (true, ⟨es⟩)
  | none => (false, s)

/-- The epoch numbers stored for a partition, in store order. -/
def EpochStore.epochNumbers (s : EpochStore) : List Nat :=
  s.epochs.map (·.current_epoch)

/-- A strictly increasing sequence of epoch numbers: every element is
smaller than its successor. -/
def strictlyIncreasing : List Nat → Prop
  | [] => True
  | [_] => True
  | a :: b :: rest => a < b ∧ strictlyIncreasing (b :: rest)

instance strictlyIncreasingDec : (l : List Nat) → Decidable (strictlyIncreasing l)
  | [] => .isTrue trivial
  | [_] => .isTrue trivial
  | a :: b :: rest =>
    have : Decidable (strictlyIncreasing (b :: rest)) := strictlyIncreasingDec (b :: rest)
    inferInstanceAs (Decidable (a < b ∧ strictlyIncreasing (b :: rest)))

/-- Maximum of a list of naturals, 0 on the empty list. -/
def listMax (l : List Nat) : Nat := l.foldr max 0

/-! ## `pyralog-core/src/sequencer.rs` -/

/-- Association-list lookup (model of `HashMap::get`). -/
def assocGet (m : List (Nat × EpochStore)) (k : Nat) : Option EpochStore :=
  (m.find? (fun p => p.1 == k)).map (·.2)

/-- Association-list insert-or-replace (model of `HashMap::insert`). -/
def assocPut (m : List (Nat × EpochStore)) (k : Nat) (v : EpochStore) :
    List (Nat × EpochStore) :=
  if (m.find? (fun p => p.1 == k)).isSome
  then m.map (fun p => if p.1 == k then (k, v) else p)
  else m ++ [(k, v)]

/-- `Sequencer` (`sequencer.rs`): node id plus per-partition epoch stores. -/
structure Sequencer where
  node_id : Nat
  partition_epochs : List (Nat × EpochStore)
deriving DecidableEq, Repr

/-- `Sequencer::activate` (`sequencer.rs`): start a new epoch in the
partition's store (created empty on demand, `entry(..).or_insert_with`). -/
def Sequencer.activate (sq : Sequencer) (partition start_offset : Nat) :
    Nat × Sequencer :=
  let store := (assocGet sq.partition_epochs partition).getD EpochStore.new
  let (epoch, store2) := store.start_epoch sq.node_id start_offset
  (epoch, { sq with partition_epochs := assocPut sq.partition_epochs partition store2 })

/-! ## `pyralog-replication/src/quorum.rs` -/

/-- `ReplicaSelectionStrategy` (`quorum.rs`). -/
inductive ReplicaSelectionStrategy where
  | RoundRobin
  | Nearest
  | Random
  | DatacenterAware (preferred_dc : String)
deriving DecidableEq, Repr

/-- `QuorumConfig` (`quorum.rs`). -/
structure QuorumConfig where
  replication_factor : Nat
  write_quorum : Nat
  read_quorum : Nat
  selection_strategy : ReplicaSelectionStrategy
deriving DecidableEq, Repr

/-- `QuorumConfig::validate` (`quorum.rs`), with the exact check order and
error strings of the source. -/
def QuorumConfig.validate (c : QuorumConfig) : Except String Unit :=
  if c.replication_factor = 0 then
    .error "Replication factor must be at least 1"
  else if c.write_quorum = 0 ∨ c.write_quorum > c.replication_factor then
    .error "Invalid write quorum size"
  else if c.read_quorum = 0 ∨ c.read_quorum > c.replication_factor then
    .error "Invalid read quorum size"
  else if c.write_quorum + c.read_quorum ≤ c.replication_factor then
    .error "Read and write quorums must overlap for consistency"
  else
    .ok ()

/-- `HashSet::insert` modelled on a duplicate-free list. -/
def hashSetInsert (s : List Nat) (x : Nat) : List Nat :=
  if x ∈ s then s else s ++ [x]

/-- `QuorumSet` (`quorum.rs`). -/
structure QuorumSet where
  all_nodes : List Nat
  required_nodes : List Nat
  responses : Nat
  target : Nat
deriving DecidableEq, Repr

/-- `QuorumSet::new` (`quorum.rs`). -/
def QuorumSet.new (all_nodes : List Nat) (target : Nat) : QuorumSet :=
  { all_nodes := all_nodes, required_nodes := [], responses := 0, target := target }

/-- `QuorumSet::add_response` (`quorum.rs`): when the node belongs to
`all_nodes`, inserts it into the `required_nodes` set and unconditionally
increments `responses`; returns whether the response was recorded. -/
def QuorumSet.add_response (q : QuorumSet) (node_id : Nat) : Bool × QuorumSet :=
  if node_id ∈ q.all_nodes then
    (true, { q with required_nodes := hashSetInsert q.required_nodes node_id,
                    responses := q.responses + 1 })
  else
    (false, q)

/-- `QuorumSet::is_satisfied` (`quorum.rs`): `responses >= target`. -/
def QuorumSet.is_satisfied (q : QuorumSet) : Prop := q.target ≤ q.responses

instance (q : QuorumSet) : Decidable q.is_satisfied :=
  inferInstanceAs (Decidable (q.target ≤ q.responses))

/-! ## `pyralog-replication/src/sync.rs` -/

/-- `HashMap<u64, LogOffset>` as an association list. -/
def offsetMapInsert (m : List (Nat × Nat)) (k v : Nat) : List (Nat × Nat) :=
  if (m.find? (fun p => p.1 == k)).isSome
  then m.map (fun p => if p.1 == k then (k, v) else p)
  else m ++ [(k, v)]

/-- `SyncManager` (`sync.rs`): per-node replicated offsets (the notifier
map has no bearing on the offset bookkeeping and is not modelled). -/
structure SyncManager where
  node_offsets : List (Nat × Nat)
deriving DecidableEq, Repr

/-- `SyncManager::update_offset` (`sync.rs`). -/
def SyncManager.update_offset (s : SyncManager) (node_id offset : Nat) : SyncManager :=
  ⟨offsetMapInsert s.node_offsets node_id offset⟩

/-- Minimum of a list of naturals (`Iterator::min`), `none` on empty. -/
def listMin : List Nat → Option Nat
  | [] => none
  | x :: xs => match listMin xs with
    | none => some x
    | some m => some (min x m)

/-- `SyncManager::get_committed_offset` (`sync.rs`): the minimum offset
across all tracked nodes, `LogOffset::ZERO` when none are tracked. -/
def SyncManager.get_committed_offset (s : SyncManager) : Nat :=
  (listMin (s.node_offsets.map (·.2))).getD 0

/-- The W-th largest offset of a list, as the spec words it ("the W-th
largest `match_offset` across the copyset"): sort descending, take entry
W-1. Stated from the spec for comparison with the source's
`get_committed_offset`. -/
def specWthLargest (offsets : List Nat) (w : Nat) : Option Nat :=
  (offsets.insertionSort (fun a b => b ≤ a)).get? (w - 1)

/-! ## `pyralog-replication/src/copyset.rs` -/

/-- `CopySet` (`copyset.rs`). -/
structure CopySet where
  nodes : List Nat
  leader : Nat
deriving DecidableEq, Repr

/-- `CopySet::size` (`copyset.rs`). -/
def CopySet.size (c : CopySet) : Nat := c.nodes.length

/-- `CopySetSelector` (`copyset.rs`). -/
structure CopySetSelector where
  all_nodes : List Nat
  replication_factor : Nat
  copyset_usage : List (List Nat × Nat)
deriving DecidableEq, Repr

/-- `slice::choose(&mut rng)`: `None` iff the slice is empty, otherwise
an arbitrary element; the rng draw is modelled by the index `i` reduced
modulo the length. -/
def choose (l : List Nat) (i : Nat) : Option Nat := l.get? (i % l.length)

/-- `*self.copyset_usage.entry(nodes).or_insert(0) += 1`. -/
def usageBump (u : List (List Nat × Nat)) (k : List Nat) : List (List Nat × Nat) :=
  if (u.find? (fun p => p.1 == k)).isSome
  then u.map (fun p => if p.1 == k then (p.1, p.2 + 1) else p)
  else u ++ [(k, 1)]

/-- `CopySetSelector::select_copyset` (`copyset.rs`). The rng is modelled
by `shuffled` (the shuffle of `all_nodes`; theorems assume it is a
permutation of `all_nodes`) and the leader-choice index `i`. Returns the
selected copyset and the selector with its usage statistics updated. -/
def CopySetSelector.select_copyset (sel : CopySetSelector) (shuffled : List Nat)
    (i : Nat) : Option CopySet × CopySetSelector :=
  if sel.all_nodes.length < sel.replication_factor then (none, sel)
  else
    let nodes := (shuffled.take sel.replication_factor).insertionSort (fun a b => a ≤ b)
    let sel2 := { sel with copyset_usage := usageBump sel.copyset_usage nodes }
    match choose nodes i with
    | some leader => (some ⟨nodes, leader⟩, sel2)
    | none => (none, sel2)

/-- `datacenter_map.get(node)` on an association list. -/
def dcLookup (m : List (Nat × String)) (n : Nat) : Option String :=
  (m.find? (fun p => p.1 == n)).map (·.2)

/-- The `while selected_nodes.len() < rf && !remaining_nodes.is_empty()`
loop of `select_copyset_dc_aware`: pop the head of `remaining` while the
selection is short of the replication factor. -/
def fillNodes (rf : Nat) : List Nat → List Nat → List Nat
  | sel, [] => sel
  | sel, n :: rest =>
    if sel.length < rf then fillNodes rf (sel ++ [n]) rest else sel

/-- The `preferred_nodes` list of `select_copyset_dc_aware`: nodes whose
datacenter equals the preferred one (`unwrap_or(false)` for unmapped
nodes). -/
def dcPreferred (sel : CopySetSelector) (datacenter_map : List (Nat × String))
    (preferred_dc : String) : List Nat :=
  sel.all_nodes.filter
    (fun n => (((dcLookup datacenter_map n).map (· == preferred_dc)).getD false))

/-- The `other_nodes` list of `select_copyset_dc_aware`: nodes whose
datacenter differs from the preferred one (`unwrap_or(true)` for
unmapped nodes). -/
def dcOther (sel : CopySetSelector) (datacenter_map : List (Nat × String))
    (preferred_dc : String) : List Nat :=
  sel.all_nodes.filter
    (fun n => (((dcLookup datacenter_map n).map (· != preferred_dc)).getD true))

/-- Final stage of `select_copyset_dc_aware`: reject when the selection
is short of the replication factor, else sort it and choose a leader. -/
def dcFinish (rf : Nat) (selected : List Nat) (i2 : Nat) : Option CopySet :=
  if selected.length < rf then none
  else
    match choose (selected.insertionSort (fun a b => a ≤ b)) i2 with
    | some leader => some ⟨selected.insertionSort (fun a b => a ≤ b), leader⟩
    | none => none

/-- `CopySetSelector::select_copyset_dc_aware` (`copyset.rs`): take one
chosen node of the preferred datacenter when any exists, fill the
remaining slots from the shuffled rest, reject a short selection, sort,
and choose a leader. Randomness is modelled by the choice indices `i1`,
`i2` and the shuffling function `σ` (theorems assume `σ l` is a
permutation of `l`). The source neither reads nor updates
`copyset_usage` here, so only the optional copyset is returned. -/
def CopySetSelector.select_copyset_dc_aware (sel : CopySetSelector)
    (datacenter_map : List (Nat × String)) (preferred_dc : String)
    (i1 : Nat) (σ : List Nat → List Nat) (i2 : Nat) : Option CopySet :=
  match if (dcPreferred sel datacenter_map preferred_dc).isEmpty then some []
        else (choose (dcPreferred sel datacenter_map preferred_dc) i1).map ([·]) with
  | none => none
  | some selected0 =>
    dcFinish sel.replication_factor
      (fillNodes sel.replication_factor selected0
        (σ ((dcPreferred sel datacenter_map preferred_dc ++
             dcOther sel datacenter_map preferred_dc).filter
          (fun n => !selected0.contains n)))) i2

/-! ## `pyralog-storage/src/segment.rs` -/

/-- The storage error type (`pyralog-core`), restricted to the kinds the
modelled code paths raise. -/
inductive DLogError where
  | StorageError (msg : String)
  | InvalidOffset (offset : Nat)
  | SerializationError (msg : String)
deriving DecidableEq, Repr

/-- `SegmentConfig` (`segment.rs`). -/
structure SegmentConfig where
  max_size : Nat
  use_mmap : Bool
  sync_on_write : Bool
deriving DecidableEq, Repr

/-- `Segment` (`segment.rs`): base offset, file bytes, configuration and
the tracked current size. -/
structure Segment where
  base_offset : Nat
  data : List Nat
  config : SegmentConfig
  current_size : Nat
deriving DecidableEq, Repr

/-- `Segment::create` (`segment.rs`): an empty segment at the given base
offset. -/
def Segment.create (base_offset : Nat) (config : SegmentConfig) : Segment :=
  { base_offset := base_offset, data := [], config := config, current_size := 0 }

/-- `Segment::append` (`segment.rs`): fails with the segment-full error
when `size + len > max_size` and leaves the segment unchanged; otherwise
writes the bytes, grows the size, and returns the pre-append position.
The optional fsync has no in-memory effect. -/
def Segment.append (s : Segment) (d : List Nat) : Except DLogError Nat × Segment :=
  if s.current_size + d.length > s.config.max_size then
    (.error (.StorageError "Segment is full"), s)
  else
    (.ok s.current_size,
     { s with data := s.data ++ d, current_size := s.current_size + d.length })

/-- `Segment::read` (`segment.rs`): fails with `InvalidOffset` when
`offset + length > size`; otherwise the byte slice (the mmap and the
positional file read return the same bytes). -/
def Segment.read (s : Segment) (offset length : Nat) : Except DLogError (List Nat) :=
  if offset + length > s.current_size then .error (.InvalidOffset offset)
  else .ok ((s.data.drop offset).take length)

/-- `Segment::can_fit` (`segment.rs`). -/
def Segment.can_fit (s : Segment) (n : Nat) : Bool :=
  s.current_size + n ≤ s.config.max_size

/-! ## `pyralog-consensus/src/state.rs` and `rpc.rs` -/

/-- `NodeRole` (`state.rs`). -/
inductive NodeRole where
  | Follower
  | Candidate
  | Leader
deriving DecidableEq, Repr

/-- `LogEntry` (`state.rs`). -/
structure LogEntry where
  term : Nat
  index : Nat
  data : List Nat
deriving DecidableEq, Repr

/-- `PersistentState` (`state.rs`). -/
structure PersistentState where
  current_term : Nat
  voted_for : Option Nat
  log : List LogEntry
deriving DecidableEq, Repr

/-- `VolatileState` (`state.rs`). -/
structure VolatileState where
  commit_index : Nat
  last_applied : Nat
deriving DecidableEq, Repr

/-- `LeaderState` (`state.rs`). -/
structure LeaderState where
  next_index : List Nat
  match_index : List Nat
deriving DecidableEq, Repr

/-- `NodeState` (`state.rs`). -/
structure NodeState where
  node_id : Nat
  role : NodeRole
  persistent : PersistentState
  volatile : VolatileState
  leader : Option LeaderState
deriving DecidableEq, Repr

/-- `NodeState::become_follower` (`state.rs`): adopt the term, clear
`voted_for`, drop leader state. -/
def NodeState.become_follower (s : NodeState) (term : Nat) : NodeState :=
  { s with role := .Follower,
           persistent := { s.persistent with current_term := term, voted_for := none },
           leader := none }

/-- `NodeState::last_log_index` (`state.rs`):
`log.len().saturating_sub(1)` (Nat subtraction saturates the same way). -/
def NodeState.last_log_index (s : NodeState) : Nat := s.persistent.log.length - 1

/-- `NodeState::last_log_term` (`state.rs`): term of the last entry, 0 on
an empty log. -/
def NodeState.last_log_term (s : NodeState) : Nat :=
  (s.persistent.log.getLast?.map (·.term)).getD 0

/-- `AppendEntriesRequest` (`rpc.rs`). -/
structure AppendEntriesRequest where
  term : Nat
  leader_id : Nat
  prev_log_index : Nat
  prev_log_term : Nat
  entries : List LogEntry
  leader_commit : Nat
deriving DecidableEq, Repr

/-- `AppendEntriesResponse` (`rpc.rs`). -/
structure AppendEntriesResponse where
  term : Nat
  success : Bool
  match_index : Option Nat
deriving DecidableEq, Repr

/-- `VoteRequest` (`rpc.rs`). -/
structure VoteRequest where
  term : Nat
  candidate_id : Nat
  last_log_index : Nat
  last_log_term : Nat
deriving DecidableEq, Repr

/-- `VoteResponse` (`rpc.rs`). -/
structure VoteResponse where
  term : Nat
  vote_granted : Bool
deriving DecidableEq, Repr

/-! ## `pyralog-consensus/src/raft.rs` (RPC handlers) -/

/-- One iteration of the `for entry in request.entries` loop of
`handle_append_entries` (`raft.rs`): push the entry when its index is
past the log, otherwise compare terms at slot `entry.index - 1`,
truncating and re-pushing on conflict. `none` marks the path on which
the source panics (`entry.index = 0` reaching `log[entry.index - 1]`). -/
def appendEntryStep (log : List LogEntry) (entry : LogEntry) : Option (List LogEntry) :=
  if entry.index > log.length then some (log ++ [entry])
  else if entry.index = 0 then none
  else
    match log.get? (entry.index - 1) with
    | none => none
    | some existing =>
      if existing.term ≠ entry.term then some (log.take (entry.index - 1) ++ [entry])
      else some log

/-- The whole entries loop of `handle_append_entries`. -/
def appendEntriesLoop (log : List LogEntry) : List LogEntry → Option (List LogEntry)
  | [] => some log
  | e :: rest =>
    match appendEntryStep log e with
    | none => none
    | some log2 => appendEntriesLoop log2 rest

/-- Tail of `RaftNode::handle_append_entries` after the consistency check
passed: run the entries loop, then advance `commit_index` to
`min(leader_commit, last_log_index())` when `leader_commit` is ahead,
and reply success with the updated `last_log_index`. -/
def appendEntriesFinish (s : NodeState) (req : AppendEntriesRequest) :
    Option (NodeState × AppendEntriesResponse) :=
  match appendEntriesLoop s.persistent.log req.entries with
  | none => none
  | some newLog =>
    let s1 : NodeState := { s with persistent := { s.persistent with log := newLog } }
    let s2 : NodeState :=
      if req.leader_commit > s1.volatile.commit_index then
        { s1 with volatile := { s1.volatile with
            commit_index := min req.leader_commit s1.last_log_index } }
      else s1
    some (s2, { term := s2.persistent.current_term, success := true,
                match_index := some s2.last_log_index })

/-- `RaftNode::handle_append_entries` (`raft.rs`), as a pure transformer
of the node state (heartbeat timestamping and state persistence have no
in-memory effect on the modelled fields; persistence is assumed to
succeed). `none` marks a panicking path. -/
def RaftNode.handle_append_entries (s : NodeState) (req : AppendEntriesRequest) :
    Option (NodeState × AppendEntriesResponse) :=
  if req.term < s.persistent.current_term then
    some (s, { term := s.persistent.current_term, success := false, match_index := none })
  else
    let s1 := if req.term > s.persistent.current_term then s.become_follower req.term else s
    if req.prev_log_index > 0 then
      if req.prev_log_index > s1.persistent.log.length then
        some (s1, { term := s1.persistent.current_term, success := false,
                    match_index := none })
      else
        match s1.persistent.log.get? (req.prev_log_index - 1) with
        | none => none
        | some prev_entry =>
          if prev_entry.term ≠ req.prev_log_term then
            let s2 : NodeState := { s1 with persistent :=
              { s1.persistent with log := s1.persistent.log.take req.prev_log_index } }
            some (s2, { term := s2.persistent.current_term, success := false,
                        match_index := none })
          else appendEntriesFinish s1 req
    else appendEntriesFinish s1 req

/-- The commit index the spec prescribes for a passing AppendEntries:
`min(leader_commit, index of the last new entry of the request)` when
`leader_commit > commit_index`. Stated from the spec for comparison with
the source handler. -/
def specIndexOfLastNewEntry (req : AppendEntriesRequest) : Nat :=
  ((req.entries.getLast?).map (·.index)).getD 0

/-- The voting decision of `handle_vote_request` (`raft.rs`), after the
stale-term rejection and the possible step-down: grant iff `voted_for`
is free or already the candidate and the candidate's log is at least as
up to date. -/
def voteDecide (s1 : NodeState) (req : VoteRequest) : NodeState × VoteResponse :=
  if (s1.persistent.voted_for = none ∨ s1.persistent.voted_for = some req.candidate_id) ∧
     (req.last_log_term > s1.last_log_term ∨
      (req.last_log_term = s1.last_log_term ∧ req.last_log_index ≥ s1.last_log_index)) then
    ({ s1 with persistent := { s1.persistent with voted_for := some req.candidate_id } },
     { term := s1.persistent.current_term, vote_granted := true })
  else
    (s1, { term := s1.persistent.current_term, vote_granted := false })

/-- `RaftNode::handle_vote_request` (`raft.rs`), as a pure transformer
(persistence and heartbeat timestamping dropped as above): reject a
stale term, step down on a strictly higher term (clearing `voted_for`),
then decide the vote. -/
def RaftNode.handle_vote_request (s : NodeState) (req : VoteRequest) :
    NodeState × VoteResponse :=
  if req.term < s.persistent.current_term then
    (s, { term := s.persistent.current_term, vote_granted := false })
  else
    voteDecide
      (if req.term > s.persistent.current_term then s.become_follower req.term else s) req

/-- `(lastLogTerm, lastLogIndex)` of `a` is lexicographically at least
`b`, as the spec compares candidate and receiver logs. -/
def lexGe (a b : Nat × Nat) : Prop := b.1 < a.1 ∨ (a.1 = b.1 ∧ b.2 ≤ a.2)

instance (a b : Nat × Nat) : Decidable (lexGe a b) :=
  inferInstanceAs (Decidable (b.1 < a.1 ∨ (a.1 = b.1 ∧ b.2 ≤ a.2)))

/-- Handle a sequence of vote requests, collecting for every granted vote
the pair (current term at the grant, candidate voted for). -/
def processVotes (s : NodeState) : List VoteRequest → NodeState × List (Nat × Nat)
  | [] => (s, [])
  | r :: rs =>
    let hr := RaftNode.handle_vote_request s r
    let rest := processVotes hr.1 rs
    (rest.1,
     (if hr.2.vote_granted then [(hr.1.persistent.current_term, r.candidate_id)] else [])
       ++ rest.2)

/-- Invariant tying a past grant (term `t`, candidate `c`) to the node
state: either the node has moved past term `t`, or it is still at `t`
with its vote bound to `c`. -/
def votedProp (t c : Nat) (s : NodeState) : Prop :=
  t < s.persistent.current_term ∨
    (t = s.persistent.current_term ∧ s.persistent.voted_for = some c)

/-! ## `pyralog-core/src/record.rs` -/

/-- `CompressionType` (`record.rs`). -/
inductive CompressionType where
  | None
  | Gzip
  | Snappy
  | Lz4
  | Zstd
deriving DecidableEq, Repr

/-- `Record` (`record.rs`). `SystemTime` is modelled as a Nat timestamp;
`Bytes` and the `String` header keys are byte lists. -/
structure Record where
  offset : Nat
  epoch : Nat
  timestamp : Nat
  key : Option (List Nat)
  value : List Nat
  headers : List (List Nat × List Nat)
deriving DecidableEq, Repr

/-- `Record::size_bytes` (`record.rs`): key length plus value length. -/
def Record.size_bytes (r : Record) : Nat :=
  (r.key.map List.length).getD 0 + r.value.length

/-- `RecordBatch` (`record.rs`). -/
structure RecordBatch where
  base_offset : Nat
  epoch : Nat
  records : List Record
  compression : CompressionType
  crc : Nat
deriving DecidableEq, Repr

/-- `RecordBatch::count` (`record.rs`). -/
def RecordBatch.count (b : RecordBatch) : Nat := b.records.length

/-- Length-prefixed byte-list encoding (model of how the serializer
delimits variable-length fields). -/
def encBytes (bs : List Nat) : List Nat := bs.length :: bs

/-- Encoding of `Option<Bytes>`: a presence tag, then the bytes. -/
def encOptBytes : Option (List Nat) → List Nat
  | none => [0]
  | some bs => 1 :: encBytes bs

/-- Encoding of a `RecordHeader`. -/
def encHeader (h : List Nat × List Nat) : List Nat := encBytes h.1 ++ encBytes h.2

/-- Model of `bincode::serialize` for `Record`: a self-delimiting
field-by-field encoding (fixed fields, then key, value and headers with
length prefixes). The exact wire layout of the external library is not
specified; what the storage engine relies on is that the encoding is
injective and that `data.len()` is the serialized size. -/
def encodeRecord (r : Record) : List Nat :=
  [r.offset, r.epoch, r.timestamp] ++ encOptBytes r.key ++ encBytes r.value ++
    (r.headers.length :: (r.headers.map encHeader).flatten)

/-- Parse a length-prefixed byte list. -/
def decBytes : List Nat → Option (List Nat × List Nat)
  | [] => none
  | n :: rest => if n ≤ rest.length then some (rest.take n, rest.drop n) else none

/-- Parse an optional byte list. -/
def decOptBytes : List Nat → Option (Option (List Nat) × List Nat)
  | [] => none
  | 0 :: rest => some (none, rest)
  | (_ + 1) :: rest => (decBytes rest).map (fun p => (some p.1, p.2))

/-- Parse `n` record headers. -/
def decHeaders : Nat → List Nat → Option (List (List Nat × List Nat) × List Nat)
  | 0, rest => some ([], rest)
  | n + 1, rest => do
    let (k, rest1) ← decBytes rest
    let (v, rest2) ← decBytes rest1
    let (hs, rest3) ← decHeaders n rest2
    some ((k, v) :: hs, rest3)

/-- Model of `bincode::deserialize` for `Record`: inverse of
`encodeRecord` (trailing bytes are ignored, as the engine always hands
the deserializer an exact slice). -/
def decodeRecord (bs : List Nat) : Option Record :=
  match bs with
  | off :: ep :: ts :: rest => do
    let (key, rest1) ← decOptBytes rest
    let (value, rest2) ← decBytes rest1
    match rest2 with
    | [] => none
    | hn :: rest3 => do
      let (headers, _) ← decHeaders hn rest3
      some ⟨off, ep, ts, key, value, headers⟩
  | _ => none

/-! ## `pyralog-storage/src/index.rs` (in-memory view) -/

/-- `Index` (`index.rs`): the in-memory `BTreeMap` from offset to
(position, size); the sidecar file mirrors it and is not separately
modelled. -/
structure Index where
  entries : List (Nat × Nat × Nat)
deriving DecidableEq, Repr

/-- `Index::append` (`index.rs`): insert-or-replace keyed by offset. -/
def Index.append (ix : Index) (offset position size : Nat) : Index :=
  ⟨if (ix.entries.find? (fun e => e.1 == offset)).isSome
    then ix.entries.map (fun e => if e.1 == offset then (offset, position, size) else e)
    else ix.entries ++ [(offset, position, size)]⟩

/-- `Index::lookup` (`index.rs`): exact-match position and size. -/
def Index.lookup (ix : Index) (offset : Nat) : Option (Nat × Nat) :=
  (ix.entries.find? (fun e => e.1 == offset)).map (·.2)

/-! ## `pyralog-storage/src/write_cache.rs` -/

/-- `WriteCacheConfig`. Modelled from the spec: `write_cache.rs` is
declared in `pyralog-storage/src/lib.rs` (`pub mod write_cache`) but its
source file is absent; spec §3 and the config defaults give the fields
(max bytes, max buffer time, enabled flag). -/
structure WriteCacheConfig where
  max_size : Nat
  max_buffer_time_ms : Nat
  enabled : Bool
deriving DecidableEq, Repr

/-- `WriteCache`. Modelled from the spec: a bounded in-memory staging
area holding records destined for the tail segment, in append (= offset)
order. -/
structure WriteCache where
  config : WriteCacheConfig
  records : List Record
deriving DecidableEq, Repr

/-- Bytes currently staged, counted by `Record::size_bytes`. Modelled
from the spec ("Configured with max bytes"). -/
def WriteCache.bytes (c : WriteCache) : Nat :=
  (c.records.map Record.size_bytes).sum

/-- `WriteCache::push`. Modelled from the spec: accepts the record (and
returns `true`) iff caching is enabled and the record fits the byte
bound. -/
def WriteCache.push (c : WriteCache) (r : Record) : Bool × WriteCache :=
  if c.config.enabled ∧ c.bytes + r.size_bytes ≤ c.config.max_size then
    (true, { c with records := c.records ++ [r] })
  else
    (false, c)

/-- `WriteCache::should_flush`. Modelled from the spec: cached bytes have
reached the bound (the age criterion is real time and is not modelled). -/
def WriteCache.should_flush (c : WriteCache) : Bool :=
  c.config.max_size ≤ c.bytes

/-- `WriteCache::drain`. Modelled from the spec: returns the staged
records in offset order and empties the cache. -/
def WriteCache.drain (c : WriteCache) : List Record × WriteCache :=
  (c.records, { c with records := [] })

/-! ## `pyralog-storage/src/log_storage.rs` -/

/-- `LogStorageConfig` (`log_storage.rs`). -/
structure LogStorageConfig where
  segment_config : SegmentConfig
  cache_config : WriteCacheConfig
deriving DecidableEq, Repr

/-- `SegmentWithIndex` (`log_storage.rs`). -/
structure SegmentWithIndex where
  segment : Segment
  index : Index
deriving DecidableEq, Repr

/-- `LogStorage` (`log_storage.rs`): the ordered segment list, the write
cache, and the `current_offset` counter. -/
structure LogStorage where
  segments : List SegmentWithIndex
  write_cache : WriteCache
  config : LogStorageConfig
  current_offset : Nat
deriving DecidableEq, Repr

/-- `LogStorage::create` (`log_storage.rs`): one empty segment at base
offset 0 with a fresh index, empty cache, `current_offset = 0`. -/
def LogStorage.create (config : LogStorageConfig) : LogStorage :=
  { segments := [⟨Segment.create 0 config.segment_config, ⟨[]⟩⟩],
    write_cache := { config := config.cache_config, records := [] },
    config := config,
    current_offset := 0 }

/-- `LogStorage::roll_segment` (`log_storage.rs`): push a fresh segment
(and index) whose base offset is the current value of `current_offset`. -/
def LogStorage.roll_segment (s : LogStorage) : LogStorage :=
  { s with segments :=
      s.segments ++ [⟨Segment.create s.current_offset s.config.segment_config, ⟨[]⟩⟩] }

/-- Write the serialized record to the tail segment and record the
(offset, position, length) triple in the tail index. `none` covers the
"No segments available" error and segment append failure. -/
def writeToTail (s : LogStorage) (r : Record) (data : List Nat) : Option LogStorage :=
  match s.segments.getLast? with
  | none => none
  | some tail =>
    match tail.segment.append data with
    | (.error _, _) => none
    | (.ok position, seg2) =>
      some { s with segments :=
        s.segments.dropLast ++ [⟨seg2, tail.index.append r.offset position data.length⟩] }

/-- `LogStorage::write_record` (`log_storage.rs`): serialize; if the tail
segment cannot fit the bytes, roll and retry. The source retries by
recursion; after one roll the tail is empty, so either the retry
succeeds or the recursion never terminates (a record larger than
`max_size`) — the latter is modelled as `none`. -/
def LogStorage.write_record (s : LogStorage) (r : Record) : Option LogStorage :=
  let data := encodeRecord r
  match s.segments.getLast? with
  | none => none
  | some tail =>
    if tail.segment.can_fit data.length then writeToTail s r data
    else
      let s2 := s.roll_segment
      match s2.segments.getLast? with
      | none => none
      | some tail2 =>
        if tail2.segment.can_fit data.length then writeToTail s2 r data
        else none

/-- Write a list of records in order (`write_batch` /
the loop in `flush_cache`). -/
def writeAll : LogStorage → List Record → Option LogStorage
  | s, [] => some s
  | s, r :: rest => (s.write_record r).bind (writeAll · rest)

/-- `LogStorage::flush_cache` (`log_storage.rs`): drain the cache and
write every drained record; the closing fsync of the tail segment and
index has no in-memory effect. -/
def LogStorage.flush_cache (s : LogStorage) : Option LogStorage :=
  let drained := s.write_cache.drain
  writeAll { s with write_cache := drained.2 } drained.1

/-- `LogStorage::flush` (`log_storage.rs`). -/
def LogStorage.flush (s : LogStorage) : Option LogStorage := s.flush_cache

/-- `LogStorage::append` (`log_storage.rs`): assign `current_offset`
(advancing it with `LogOffset::next`, a saturating successor), stamp the
record, then either stage it in the cache (flushing when `should_flush`)
or flush and write directly. Returns the assigned offset. -/
def LogStorage.append (s : LogStorage) (r : Record) : Option (Nat × LogStorage) :=
  let offset := s.current_offset
  let s1 : LogStorage := { s with current_offset := min (s.current_offset + 1) u64Max }
  let r1 : Record := { r with offset := offset }
  match s1.write_cache.push r1 with
  | (true, cache2) =>
    let s2 : LogStorage := { s1 with write_cache := cache2 }
    if cache2.should_flush then (s2.flush_cache).map ((offset, ·)) else some (offset, s2)
  | (false, _) => do
    let s2 ← s1.flush_cache
    let s3 ← s2.write_record r1
    some (offset, s3)

/-- `LogStorage::append_batch` (`log_storage.rs`): reserve `count`
contiguous offsets, stamp the records in order, and write them directly
(bypassing the cache). Returns the base offset. -/
def LogStorage.append_batch (s : LogStorage) (batch : RecordBatch) :
    Option (Nat × LogStorage) :=
  let base := s.current_offset
  let s1 : LogStorage := { s with current_offset := s.current_offset + batch.count }
  let records := batch.records.enum.map (fun p => { p.2 with offset := base + p.1 })
  (writeAll s1 records).map ((base, ·))

/-- The segment scan of `LogStorage::read` (`log_storage.rs`), over the
segment list already reversed: the first segment whose base offset is at
most the requested offset and whose index has the offset yields the
record; `none` is a read or deserialization error, `some none` is
`Ok(None)`. -/
def readFrom : List SegmentWithIndex → Nat → Option (Option Record)
  | [], _ => some none
  | seg :: rest, offset =>
    if seg.segment.base_offset ≤ offset then
      match seg.index.lookup offset with
      | some ps =>
        match seg.segment.read ps.1 ps.2 with
        | .error _ => none
        | .ok data =>
          match decodeRecord data with
          | none => none
          | some r => some (some r)
      | none => readFrom rest offset
    else readFrom rest offset

/-- `LogStorage::read` (`log_storage.rs`). -/
def LogStorage.read (s : LogStorage) (offset : Nat) : Option (Option Record) :=
  readFrom s.segments.reverse offset

/-- `LogStorage::high_watermark` (`log_storage.rs`). -/
def LogStorage.high_watermark (s : LogStorage) : Nat := s.current_offset

/-! ## `pyralog-replication/src/replicator.rs` -/

/-- `ReplicationConfig` (`replicator.rs`). -/
structure ReplicationConfig where
  quorum : QuorumConfig
  max_in_flight : Nat
  retry_attempts : Nat
  timeout_ms : Nat
deriving DecidableEq, Repr

/-- `ReplicationManager` (`replicator.rs`). -/
structure ReplicationManager where
  config : ReplicationConfig
  sync_manager : SyncManager
  copyset_selector : CopySetSelector
  partition_copysets : List (Nat × CopySet)
deriving DecidableEq, Repr

/-- `ReplicationManager::committed_offset` (`replicator.rs`): delegates
to `SyncManager::get_committed_offset`. -/
def ReplicationManager.committed_offset (m : ReplicationManager) : Nat :=
  m.sync_manager.get_committed_offset

/-! ## Concrete instances used by the claim theorems -/

/-- Storage configuration exhibiting the C1 failure: segments of 10
bytes, caching enabled with ample room. -/
def c1Config : LogStorageConfig :=
  { segment_config := { max_size := 10, use_mmap := true, sync_on_write := false },
    cache_config := { max_size := 1000, max_buffer_time_ms := 10, enabled := true } }

/-- A minimal record (serializes to 6 bytes in the model encoding). -/
def c1Record : Record :=
  { offset := 0, epoch := 1, timestamp := 0, key := none, value := [], headers := [] }

/-- First append to a fresh C1 store. -/
def c1Step1 : Option (Nat × LogStorage) := (LogStorage.create c1Config).append c1Record

/-- Second append. -/
def c1Step2 : Option (Nat × LogStorage) := c1Step1.bind (fun p => p.2.append c1Record)

/-- Flush after both appends. -/
def c1Final : Option LogStorage := c1Step2.bind (fun p => p.2.flush)

/-- The same two records as one batch (the cache-bypassing path). -/
def c1Batch : RecordBatch :=
  { base_offset := 0, epoch := 1, records := [c1Record, c1Record],
    compression := .None, crc := 0 }

/-- `append_batch` of `c1Batch` on a fresh C1 store, then flush. -/
def c1BatchFinal : Option (Nat × LogStorage) :=
  ((LogStorage.create c1Config).append_batch c1Batch).bind
    (fun p => (p.2.flush).map ((p.1, ·)))

/-- Offset-tracking state with three copyset nodes at offsets 100, 50, 75. -/
def c2Sync : SyncManager := ⟨[(1, 100), (2, 50), (3, 75)]⟩

/-- A replication manager over `c2Sync` with write quorum W = 2. -/
def c2Mgr : ReplicationManager :=
  { config := { quorum := { replication_factor := 3, write_quorum := 2, read_quorum := 2,
                            selection_strategy := .RoundRobin },
                max_in_flight := 1000, retry_attempts := 3, timeout_ms := 5000 },
    sync_manager := c2Sync,
    copyset_selector := ⟨[1, 2, 3], 3, []⟩,
    partition_copysets := [(0, ⟨[1, 2, 3], 1⟩)] }

/-- A follower with an empty log at term 1. -/
def c4State : NodeState :=
  { node_id := 2, role := .Follower,
    persistent := { current_term := 1, voted_for := none, log := [] },
    volatile := { commit_index := 0, last_applied := 0 },
    leader := none }

/-- An AppendEntries request carrying one new entry at index 1 with
`leader_commit = 1`, passing the consistency check. -/
def c4Req : AppendEntriesRequest :=
  { term := 1, leader_id := 1, prev_log_index := 0, prev_log_term := 0,
    entries := [{ term := 1, index := 1, data := [] }], leader_commit := 1 }

/-- A follower state used to witness the vote-request theorem. -/
def c5State : NodeState :=
  { node_id := 3, role := .Follower,
    persistent := { current_term := 2, voted_for := none, log := [] },
    volatile := { commit_index := 0, last_applied := 0 },
    leader := none }

/-- A vote request the `c5State` node grants. -/
def c5Req : VoteRequest :=
  { term := 2, candidate_id := 7, last_log_index := 0, last_log_term := 0 }

/-- An epoch store whose single epoch already carries `u64::MAX`. -/
def c7Store : EpochStore := ⟨[EpochMetadata.new u64Max 1 0]⟩

/-- An epoch store with one ordinary epoch, used as witness input. -/
def c7Wit : EpochStore := ⟨[EpochMetadata.new 1 9 0]⟩

/-- A segment with room for three more bytes, used as witness input. -/
def c8Seg : Segment :=
  { base_offset := 0, data := [7],
    config := { max_size := 4, use_mmap := false, sync_on_write := true },
    current_size := 1 }

/-- Bytes to append to `c8Seg`. -/
def c8Data : List Nat := [1, 2, 3]

/-- A selector with a single node and replication factor 0. -/
def c9Sel : CopySetSelector := ⟨[1], 0, []⟩

/-- A five-node selector with replication factor 3, used as witness input. -/
def c9Wit : CopySetSelector := ⟨[1, 2, 3, 4, 5], 3, []⟩

/-- A one-node selector with replication factor 2 (fewer nodes than the
replication factor), used as witness input. -/
def c9WitSmall : CopySetSelector := ⟨[1], 2, []⟩

/-- A quorum set over nodes {1,2,3} with target 2 after node 1 responded
twice. -/
def c10Quorum : QuorumSet :=
  (((QuorumSet.new [1, 2, 3] 2).add_response 1).2.add_response 1).2

/-- A fresh quorum set used as witness input. -/
def c10Wit : QuorumSet := QuorumSet.new [4, 5] 2

/-! ## Claim theorems -/

/-- Claim C1 (code bug): two records are appended (receiving offsets 0
and 1) and the flush completes, yet `read(1)` returns `Ok(None)` instead
of the appended record: `roll_segment` bases the new segment at the
already-advanced `current_offset`, and the read scan skips segments
whose base offset exceeds the requested offset. The same happens on the
cache-bypassing `append_batch` path, so the failure does not depend on
the write-cache behaviour. -/
theorem C1_flushed_record_unreadable :
    c1Step2.map (·.1) = some 1 ∧
    c1Final.isSome = true ∧
    c1Final.map (fun s => s.read 1) = some (some none) ∧
    c1BatchFinal.map (·.1) = some 0 ∧
    c1BatchFinal.map (fun p => p.2.read 1) = some (some none) := by
  refine ⟨rfl, rfl, rfl, rfl, rfl⟩

/-- Claim C4 (code bug): on a passing AppendEntries whose single new
entry has index 1 and whose `leader_commit` is 1, the handler leaves
`commit_index` at 0 (it takes `min(leader_commit, log.len() - 1)`),
while the claimed rule `min(leader_commit, index of last new entry)`
gives 1. -/
theorem C4_commit_index_mismatch :
    (RaftNode.handle_append_entries c4State c4Req).map
        (fun p => (p.1.volatile.commit_index, p.2.success)) = some (0, true) ∧
    min c4Req.leader_commit (specIndexOfLastNewEntry c4Req) = 1 := by
  refine ⟨rfl, rfl⟩

/-- Claim C6: `QuorumConfig::validate` accepts exactly the configurations
with `0 < R`, `0 < W ≤ R`, `0 < Rq ≤ R` and `W + Rq > R`; the
configuration R=3, W=1, Rq=1 is rejected with the quorum-overlap error
and R=3, W=2, Rq=2 validates. -/
theorem C6_validate_iff :
    (∀ c : QuorumConfig,
      c.validate = .ok () ↔
        (0 < c.replication_factor ∧
         0 < c.write_quorum ∧ c.write_quorum ≤ c.replication_factor ∧
         0 < c.read_quorum ∧ c.read_quorum ≤ c.replication_factor ∧
         c.replication_factor < c.write_quorum + c.read_quorum)) ∧
    QuorumConfig.validate ⟨3, 1, 1, .RoundRobin⟩ =
      .error "Read and write quorums must overlap for consistency" ∧
    QuorumConfig.validate ⟨3, 2, 2, .RoundRobin⟩ = .ok () := by
  refine ⟨fun c => ?_, rfl, rfl⟩
  unfold QuorumConfig.validate
  split_ifs with h1 h2 h3 h4 <;> simp <;> omega

/-- Claim C8: `Segment::append` fails (with the segment-full error) iff
`current_size + data.len() > max_size`, equivalently iff `can_fit` is
false; failure leaves the segment unchanged, and success returns the
pre-append position and grows `current_size` by exactly the data
length. -/
theorem C8_segment_append :
    ∀ (s : Segment) (d : List Nat),
      ((s.append d).1 = .error (.StorageError "Segment is full") ↔
        s.config.max_size < s.current_size + d.length) ∧
      ((s.append d).1 = .error (.StorageError "Segment is full") ↔
        s.can_fit d.length = false) ∧
      (s.can_fit d.length = false → (s.append d).2 = s) ∧
      (s.can_fit d.length = true →
        (s.append d).1 = .ok s.current_size ∧
        (s.append d).2.current_size = s.current_size + d.length) := by
  intro s d
  by_cases h : s.current_size + d.length > s.config.max_size
  · simp [Segment.append, Segment.can_fit, h, Nat.not_le.mpr h]
  · have h2 : s.current_size + d.length ≤ s.config.max_size := Nat.not_lt.mp h
    simp [Segment.append, Segment.can_fit, h, h2, Nat.not_lt.mpr h2]

/-- Witness for C8 at the concrete segment `c8Seg` and bytes `c8Data`. -/
theorem C8_witness :
    (c8Seg.append c8Data).1 = .ok c8Seg.current_size ∧
    (c8Seg.append c8Data).2.current_size = c8Seg.current_size + c8Data.length :=
  (C8_segment_append c8Seg c8Data).2.2.2 (by decide)

/-- Claim C10: `add_response` returns true and increments `responses`
whenever the node is in `all_nodes`, also for repeated responses from
the same node; in the concrete run `c10Quorum` node 1 responds twice
against target 2, `is_satisfied` holds, yet only one distinct node has
responded. -/
theorem C10_add_response_duplicates :
    (∀ (q : QuorumSet) (n : Nat), n ∈ q.all_nodes →
      (q.add_response n).1 = true ∧ (q.add_response n).2.responses = q.responses + 1) ∧
    (c10Quorum.is_satisfied ∧ c10Quorum.required_nodes.length = 1 ∧
      c10Quorum.required_nodes.length < c10Quorum.target) := by
  refine ⟨fun q n hn => ?_, by decide⟩
  unfold QuorumSet.add_response
  rw [if_pos hn]
  exact ⟨rfl, rfl⟩

/-- Witness for C10 at the concrete quorum set `c10Wit` and node 5. -/
theorem C10_witness :
    (c10Wit.add_response 5).1 = true ∧
    (c10Wit.add_response 5).2.responses = c10Wit.responses + 1 :=
  C10_add_response_duplicates.1 c10Wit 5 (by decide)

/-- Counterexample for C2: with match offsets {100, 50, 75} and write
quorum W = 2, the W-th largest match offset is 75, but the source's
committed offset (the minimum across all nodes) is 50. -/
theorem C2_counterexample :
    c2Mgr.committed_offset = 50 ∧
    c2Mgr.config.quorum.write_quorum = 2 ∧
    specWthLargest (c2Mgr.sync_manager.node_offsets.map (·.2)) 2 = some 75 ∧
    c2Mgr.committed_offset ≠ 75 := by
  refine ⟨rfl, rfl, by decide, by decide⟩

/-- `listMin` is a lower bound for every member. -/
theorem listMin_le_of_mem : ∀ (l : List Nat) (x : Nat), x ∈ l → (listMin l).getD 0 ≤ x := by
  intro l
  induction l with
  | nil => intro x hx; cases hx
  | cons y ys ih =>
    intro x hx
    cases hm : listMin ys with
    | none =>
      have hys : ys = [] := by
        cases ys with
        | nil => rfl
        | cons a as => simp [listMin] at hm; cases h2 : listMin as <;> simp [h2] at hm
      subst hys
      simp at hx
      simp [listMin, hx]
    | some m =>
      simp only [listMin, hm, Option.getD_some]
      rcases List.mem_cons.mp hx with h | h
      · subst h; exact Nat.min_le_left _ _
      · have := ih x h
        rw [hm] at this
        exact le_trans (Nat.min_le_right _ _) this

/-- `listMin` of a nonempty list is attained by a member. -/
theorem listMin_mem : ∀ (l : List Nat), l ≠ [] → ∃ x ∈ l, listMin l = some x := by
  intro l
  induction l with
  | nil => intro h; exact absurd rfl h
  | cons y ys ih =>
    intro _
    cases hm : listMin ys with
    | none => exact ⟨y, List.mem_cons_self y ys, by simp [listMin, hm]⟩
    | some m =>
      have hys : ys ≠ [] := by
        intro h; subst h; simp [listMin] at hm
      obtain ⟨x, hx, hlx⟩ := ih hys
      rw [hm] at hlx
      obtain rfl : m = x := by injection hlx
      rcases Nat.le_total y m with h | h
      · exact ⟨y, List.mem_cons_self y ys,
          by simp [listMin, hm, Nat.min_eq_left h]⟩
      · exact ⟨m, List.mem_cons_of_mem y hx,
          by simp [listMin, hm, Nat.min_eq_right h]⟩

/-- Claim C2 (amended): `ReplicationManager::committed_offset` equals
`SyncManager::get_committed_offset`, which is the minimum `match_offset`
across all tracked nodes — a lower bound attained by some tracked node
when any exist, and `LogOffset::ZERO` otherwise. It does not depend on
the write quorum. -/
theorem C2_committed_offset_is_min :
    ∀ (m : ReplicationManager),
      m.committed_offset = m.sync_manager.get_committed_offset ∧
      (∀ p ∈ m.sync_manager.node_offsets, m.committed_offset ≤ p.2) ∧
      (m.sync_manager.node_offsets ≠ [] →
        ∃ p ∈ m.sync_manager.node_offsets, m.committed_offset = p.2) ∧
      (m.sync_manager.node_offsets = [] → m.committed_offset = 0) := by
  intro m
  refine ⟨rfl, ?_, ?_, ?_⟩
  · intro p hp
    exact listMin_le_of_mem _ _ (List.mem_map_of_mem (·.2) hp)
  · intro hne
    have hmapne : m.sync_manager.node_offsets.map (·.2) ≠ [] := by
      simpa using hne
    obtain ⟨x, hx, hlx⟩ := listMin_mem _ hmapne
    obtain ⟨p, hp, hpx⟩ := List.mem_map.mp hx
    refine ⟨p, hp, ?_⟩
    show (listMin (m.sync_manager.node_offsets.map (·.2))).getD 0 = p.2
    rw [hlx, hpx]
    rfl
  · intro he
    show (listMin (m.sync_manager.node_offsets.map (·.2))).getD 0 = 0
    rw [he]
    rfl

/-- Witness for C2 at the concrete manager `c2Mgr`. -/
theorem C2_witness :
    c2Mgr.committed_offset ≤ 100 ∧
    ∃ p ∈ c2Mgr.sync_manager.node_offsets, c2Mgr.committed_offset = p.2 :=
  ⟨(C2_committed_offset_is_min c2Mgr).2.1 (1, 100) (by decide),
   (C2_committed_offset_is_min c2Mgr).2.2.1 (by decide)⟩

/-- Or of a shifted value with a small value is their sum (the bit
ranges are disjoint). -/
theorem mul_pow_lor_eq_add {e o k : Nat} (ho : o < 2 ^ k) :
    (e * 2 ^ k) ||| o = e * 2 ^ k + o := by
  apply Nat.eq_of_testBit_eq
  intro i
  rw [Nat.testBit_lor]
  rcases Nat.lt_or_ge i k with hik | hik
  · have hdecomp : (2 : Nat) ^ k = 2 ^ (k - i) * 2 ^ i := by
      rw [← pow_add]
      congr 1
      omega
    have hpar : e * 2 ^ (k - i) % 2 = 0 := by
      have hki : k - i = (k - i - 1) + 1 := by omega
      rw [hki, pow_succ, ← Nat.mul_assoc]
      exact Nat.mul_mod_left _ 2
    have hlow : (e * 2 ^ k).testBit i = false := by
      rw [Nat.testBit_to_div_mod]
      have hdiv : e * 2 ^ k / 2 ^ i = e * 2 ^ (k - i) := by
        rw [hdecomp, ← Nat.mul_assoc]
        exact Nat.mul_div_cancel _ (Nat.two_pow_pos i)
      rw [hdiv]
      simp [hpar]
    have hsum : (e * 2 ^ k + o).testBit i = o.testBit i := by
      rw [Nat.testBit_to_div_mod, Nat.testBit_to_div_mod]
      have hdiv : (e * 2 ^ k + o) / 2 ^ i = e * 2 ^ (k - i) + o / 2 ^ i := by
        rw [hdecomp, ← Nat.mul_assoc, Nat.add_comm,
            Nat.add_mul_div_right _ _ (Nat.two_pow_pos i), Nat.add_comm]
      rw [hdiv]
      have : (e * 2 ^ (k - i) + o / 2 ^ i) % 2 = o / 2 ^ i % 2 := by omega
      rw [this]
    rw [hlow, hsum, Bool.false_or]
  · have hhi : o.testBit i = false :=
      Nat.testBit_lt_two_pow (lt_of_lt_of_le ho (Nat.pow_le_pow_right (by norm_num) hik))
    have hdecomp : (2 : Nat) ^ i = 2 ^ k * 2 ^ (i - k) := by
      rw [← pow_add]
      congr 1
      omega
    have hsum : (e * 2 ^ k + o).testBit i = (e * 2 ^ k).testBit i := by
      rw [Nat.testBit_to_div_mod, Nat.testBit_to_div_mod]
      have h1 : (e * 2 ^ k + o) / 2 ^ i = e / 2 ^ (i - k) := by
        rw [hdecomp, ← Nat.div_div_eq_div_mul, Nat.add_comm,
            Nat.add_mul_div_right _ _ (Nat.two_pow_pos k), Nat.div_eq_of_lt ho,
            Nat.zero_add]
      have h2 : e * 2 ^ k / 2 ^ i = e / 2 ^ (i - k) := by
        rw [hdecomp, ← Nat.div_div_eq_div_mul, Nat.mul_div_cancel _ (Nat.two_pow_pos k)]
      rw [h1, h2]
    rw [hsum, hhi, Bool.or_false]

/-- For epochs below 2^32, `to_lsn` is exactly `epoch * 2^32 + offset`. -/
theorem to_lsn_arith {eo : EpochOffset} (he : eo.epoch < u32Size) (ho : eo.offset < u32Size) :
    eo.to_lsn = eo.epoch * u32Size + eo.offset := by
  unfold EpochOffset.to_lsn u32Size at *
  rw [Nat.shiftLeft_eq]
  have h64 : eo.epoch * 2 ^ 32 < u64Size := by
    unfold u64Size
    calc eo.epoch * 2 ^ 32 ≤ (2 ^ 32 - 1) * 2 ^ 32 :=
          Nat.mul_le_mul_right _ (by omega)
      _ < 2 ^ 64 := by norm_num
  rw [Nat.mod_eq_of_lt h64]
  exact mul_pow_lor_eq_add ho

/-- For epochs below 2^32, the LSN round-trip is the identity. -/
theorem from_to_lsn {eo : EpochOffset} (he : eo.epoch < u32Size) (ho : eo.offset < u32Size) :
    EpochOffset.from_lsn eo.to_lsn = eo := by
  rw [to_lsn_arith he ho]
  unfold EpochOffset.from_lsn
  unfold u32Size at *
  cases eo with
  | mk e o =>
    have he2 : e < 2 ^ 32 := he
    have ho2 : o < 2 ^ 32 := ho
    have hmask : (0xFFFFFFFF : Nat) = 2 ^ 32 - 1 := by norm_num
    have hepoch : (e * 2 ^ 32 + o) >>> 32 = e := by
      rw [Nat.shiftRight_eq_div_pow, Nat.add_comm,
          Nat.add_mul_div_right _ _ (Nat.two_pow_pos 32), Nat.div_eq_of_lt ho2,
          Nat.zero_add]
    have hoff : (e * 2 ^ 32 + o) &&& 0xFFFFFFFF = o := by
      rw [hmask, Nat.and_pow_two_sub_one_eq_mod, Nat.add_comm,
          Nat.add_mul_mod_self_right, Nat.mod_eq_of_lt ho2]
    show EpochOffset.mk ((e * 2 ^ 32 + o) >>> 32) ((e * 2 ^ 32 + o) &&& 0xFFFFFFFF) = ⟨e, o⟩
    rw [hepoch, hoff]

/-- Claim C3 (amended): for epoch-offsets whose epoch fits in 32 bits,
`from_lsn (to_lsn eo)` is `eo`, and the numeric order of the packed
64-bit LSNs coincides with the lexicographic order on (epoch, offset);
epochs at or above 2^32 are truncated by the shift and break both. -/
theorem C3_lsn_roundtrip_and_order :
    ∀ a b : EpochOffset,
      a.epoch < u32Size → a.offset < u32Size →
      b.epoch < u32Size → b.offset < u32Size →
      EpochOffset.from_lsn a.to_lsn = a ∧
      (a.to_lsn < b.to_lsn ↔ a.lexLt b) := by
  intro a b ha1 ha2 hb1 hb2
  refine ⟨from_to_lsn ha1 ha2, ?_⟩
  rw [to_lsn_arith ha1 ha2, to_lsn_arith hb1 hb2]
  unfold EpochOffset.lexLt
  unfold u32Size at *
  constructor
  · intro h
    rcases Nat.lt_trichotomy a.epoch b.epoch with hlt | heq | hgt
    · exact Or.inl hlt
    · refine Or.inr ⟨heq, ?_⟩
      rw [heq] at h
      omega
    · exfalso
      have : b.epoch * 2 ^ 32 + 2 ^ 32 ≤ a.epoch * 2 ^ 32 := by
        have : (b.epoch + 1) * 2 ^ 32 ≤ a.epoch * 2 ^ 32 :=
          Nat.mul_le_mul_right _ hgt
        omega
      omega
  · intro h
    rcases h with hlt | ⟨heq, holt⟩
    · have : a.epoch * 2 ^ 32 + 2 ^ 32 ≤ b.epoch * 2 ^ 32 := by
        have : (a.epoch + 1) * 2 ^ 32 ≤ b.epoch * 2 ^ 32 :=
          Nat.mul_le_mul_right _ hlt
        omega
      omega
    · rw [heq]
      omega

/-- Witness for C3 at the concrete epoch-offsets (5, 100) and (5, 101). -/
theorem C3_witness :
    EpochOffset.from_lsn (EpochOffset.to_lsn ⟨5, 100⟩) = ⟨5, 100⟩ ∧
    (EpochOffset.to_lsn ⟨5, 100⟩ < EpochOffset.to_lsn ⟨5, 101⟩ ↔
      EpochOffset.lexLt ⟨5, 100⟩ ⟨5, 101⟩) :=
  C3_lsn_roundtrip_and_order ⟨5, 100⟩ ⟨5, 101⟩ (by decide) (by decide) (by decide) (by decide)

/-- Counterexample for C3: at epoch 2^32 (representable as u64) the
shift `epoch << 32` truncates, the LSN round-trip loses the epoch, and
the numeric LSN order disagrees with the lexicographic order. -/
theorem C3_counterexample :
    EpochOffset.from_lsn (EpochOffset.to_lsn ⟨u32Size, 0⟩) ≠ ⟨u32Size, 0⟩ ∧
    u32Size < u64Size ∧
    EpochOffset.lexLt ⟨1, 0⟩ ⟨u32Size, 0⟩ ∧
    ¬ EpochOffset.to_lsn ⟨1, 0⟩ < EpochOffset.to_lsn ⟨u32Size, 0⟩ := by
  refine ⟨by decide, by decide, by decide, by decide⟩

/-- Counterexample for C7: on a store whose last epoch is `u64::MAX`,
`start_epoch` saturates and appends a duplicate epoch `u64::MAX`: the
returned epoch is not `max + 1` and the epoch sequence stops being
strictly increasing. -/
theorem C7_counterexample :
    strictlyIncreasing c7Store.epochNumbers ∧
    (c7Store.start_epoch 1 5).1 = u64Max ∧
    (c7Store.start_epoch 1 5).1 ≠ listMax c7Store.epochNumbers + 1 ∧
    ¬ strictlyIncreasing (c7Store.start_epoch 1 5).2.epochNumbers := by
  refine ⟨by decide, by decide, by decide, by decide⟩

/-- In a strictly increasing list every element is at most the last one. -/
theorem strictInc_le_last : ∀ (l : List Nat), strictlyIncreasing l →
    ∀ x ∈ l, x ≤ (l.getLast?).getD 0
  | [] => by intro _ x hx; cases hx
  | [a] => by
    intro _ x hx
    simp at hx
    simp [hx]
  | a :: b :: rest => by
    intro h x hx
    obtain ⟨hab, hrest⟩ := h
    rw [List.getLast?_cons_cons]
    rcases List.mem_cons.mp hx with rfl | hx2
    · have hb := strictInc_le_last (b :: rest) hrest b (List.mem_cons_self b rest)
      omega
    · exact strictInc_le_last (b :: rest) hrest x hx2

/-- `listMax` is an upper bound for every member. -/
theorem le_listMax_of_mem : ∀ (l : List Nat) (x : Nat), x ∈ l → x ≤ listMax l := by
  intro l
  induction l with
  | nil => intro x hx; cases hx
  | cons y ys ih =>
    intro x hx
    show x ≤ max y (listMax ys)
    rcases List.mem_cons.mp hx with rfl | hx2
    · exact Nat.le_max_left _ _
    · exact le_trans (ih x hx2) (Nat.le_max_right _ _)

/-- `listMax` of a nonempty list is a member. -/
theorem listMax_mem : ∀ (l : List Nat), l ≠ [] → listMax l ∈ l := by
  intro l
  induction l with
  | nil => intro h; exact absurd rfl h
  | cons y ys ih =>
    intro _
    show max y (listMax ys) ∈ y :: ys
    cases ys with
    | nil => simp [listMax]
    | cons a as =>
      rcases Nat.le_total y (listMax (a :: as)) with h | h
      · rw [Nat.max_eq_right h]
        exact List.mem_cons_of_mem y (ih (by simp))
      · rw [Nat.max_eq_left h]
        exact List.mem_cons_self y _

/-- In a strictly increasing nonempty list the maximum is the last
element. -/
theorem listMax_eq_last (l : List Nat) (h : strictlyIncreasing l) (hne : l ≠ []) :
    listMax l = (l.getLast?).getD 0 := by
  refine le_antisymm (strictInc_le_last l h _ (listMax_mem l hne)) ?_
  cases hl : l.getLast? with
  | none => exact absurd (List.getLast?_eq_none_iff.mp hl) hne
  | some a =>
    simp only [Option.getD_some]
    exact le_listMax_of_mem l a (List.mem_of_mem_getLast? (by rw [hl]; rfl))

/-- Appending one element dominating every member of a strictly
increasing list keeps it strictly increasing. -/
theorem strictInc_append_one : ∀ (l : List Nat) (x : Nat), strictlyIncreasing l →
    (∀ y ∈ l, y < x) → strictlyIncreasing (l ++ [x])
  | [] => by intro x _ _; trivial
  | [a] => by
    intro x _ hdom
    exact ⟨hdom a (by simp), trivial⟩
  | a :: b :: rest => by
    intro x h hdom
    obtain ⟨hab, hrest⟩ := h
    refine ⟨hab, ?_⟩
    exact strictInc_append_one (b :: rest) x hrest
      (fun y hy => hdom y (List.mem_cons_of_mem a hy))

/-- `sealFirst` never changes the epoch numbers. -/
theorem sealFirst_epochNumbers : ∀ (l : List EpochMetadata) (e o : Nat)
    (l2 : List EpochMetadata), sealFirst e o l = some l2 →
    l2.map (·.current_epoch) = l.map (·.current_epoch) := by
  intro l e o
  induction l with
  | nil => intro l2 h; cases h
  | cons m rest ih =>
    intro l2 h
    unfold sealFirst at h
    by_cases hm : m.current_epoch == e
    · rw [if_pos hm] at h
      obtain rfl : EpochMetadata.seal m o :: rest = l2 := by injection h
      rfl
    · rw [if_neg hm] at h
      obtain ⟨r2, hr2, hl2⟩ := Option.map_eq_some'.mp h
      subst hl2
      simp [ih r2 hr2]

/-- Claim C7 (amended): `start_epoch` appends an unsealed metadata entry
carrying the given sequencer node and start offset, numbered with the
saturating successor of the last stored epoch (1 on an empty store).
While the stored epoch numbers are strictly increasing and all below
`u64::MAX`, this number is `max_existing_epoch + 1` and strict increase
is preserved; `seal_epoch` never changes the epoch numbers. (At
`u64::MAX` the successor saturates and strict increase fails, see the
counterexample.) -/
theorem C7_epoch_monotonic :
    ∀ (st : EpochStore) (node off : Nat),
      ((st.start_epoch node off).2.epochs =
        st.epochs ++ [EpochMetadata.new (st.start_epoch node off).1 node off]) ∧
      (st.epochs = [] → (st.start_epoch node off).1 = Epoch.FIRST) ∧
      (strictlyIncreasing st.epochNumbers →
        (∀ e ∈ st.epochNumbers, e < u64Max) →
        (st.epochs ≠ [] → (st.start_epoch node off).1 = listMax st.epochNumbers + 1) ∧
        strictlyIncreasing (st.start_epoch node off).2.epochNumbers) ∧
      (∀ e o, ((st.seal_epoch e o).2).epochNumbers = st.epochNumbers) := by
  intro st node off
  have happend : (st.start_epoch node off).2.epochs =
      st.epochs ++ [EpochMetadata.new (st.start_epoch node off).1 node off] := rfl
  have hnums : (st.start_epoch node off).2.epochNumbers =
      st.epochNumbers ++ [(st.start_epoch node off).1] := by
    unfold EpochStore.epochNumbers
    rw [happend, List.map_append]
    rfl
  refine ⟨happend, ?_, ?_, ?_⟩
  · intro he
    obtain ⟨es⟩ := st
    simp only at he
    subst he
    rfl
  · intro hinc hbound
    by_cases hne : st.epochs = []
    · refine ⟨fun h => absurd hne h, ?_⟩
      rw [hnums]
      obtain ⟨es⟩ := st
      simp only at hne
      subst hne
      trivial
    · cases hl : st.epochs.getLast? with
      | none => exact absurd (List.getLast?_eq_none_iff.mp hl) hne
      | some last =>
        have hret : (st.start_epoch node off).1 = Epoch.next last.current_epoch := by
          unfold EpochStore.start_epoch
          rw [hl]
        have hnumsne : st.epochNumbers ≠ [] := by
          unfold EpochStore.epochNumbers
          simpa using hne
        have hlastnum : (st.epochNumbers.getLast?).getD 0 = last.current_epoch := by
          unfold EpochStore.epochNumbers
          rw [List.getLast?_map, hl]
          rfl
        have hmax : listMax st.epochNumbers = last.current_epoch := by
          rw [listMax_eq_last st.epochNumbers hinc hnumsne, hlastnum]
        have hlt : last.current_epoch < u64Max := by
          have hmem : last.current_epoch ∈ st.epochNumbers := by
            unfold EpochStore.epochNumbers
            exact List.mem_map_of_mem _ (List.mem_of_mem_getLast? (by rw [hl]; rfl))
          exact hbound _ hmem
        have hsucc : Epoch.next last.current_epoch = last.current_epoch + 1 := by
          unfold Epoch.next
          omega
        have hretval : (st.start_epoch node off).1 = listMax st.epochNumbers + 1 := by
          rw [hret, hsucc, hmax]
        refine ⟨fun _ => hretval, ?_⟩
        rw [hnums, hretval]
        refine strictInc_append_one _ _ hinc ?_
        intro y hy
        have := le_listMax_of_mem _ y hy
        omega
  · intro e o
    unfold EpochStore.seal_epoch
    cases hsf : sealFirst e o st.epochs with
    | none => rfl
    | some es =>
      show EpochStore.epochNumbers ⟨es⟩ = st.epochNumbers
      unfold EpochStore.epochNumbers
      exact sealFirst_epochNumbers st.epochs e o es hsf

/-- Witness for C7 at the concrete store `c7Wit`. -/
theorem C7_witness :
    (c7Wit.start_epoch 2 10).1 = listMax c7Wit.epochNumbers + 1 ∧
    strictlyIncreasing (c7Wit.start_epoch 2 10).2.epochNumbers := by
  have h := (C7_epoch_monotonic c7Wit 2 10).2.2.1 (by decide) (by decide)
  exact ⟨h.1 (by decide), h.2⟩

/-- Counterexample for C9: with replication factor 0 and one node in the
preferred datacenter, `select_copyset_dc_aware` returns a copyset of
size 1 rather than one of size `replication_factor`. -/
theorem C9_counterexample :
    c9Sel.select_copyset_dc_aware [(1, "a")] "a" 0 id 0 = some ⟨[1], 1⟩ ∧
    (⟨[1], 1⟩ : CopySet).size ≠ c9Sel.replication_factor := by
  refine ⟨rfl, by decide⟩

/-- A successful `choose` yields a member of the slice. -/
theorem choose_mem {l : List Nat} {i x : Nat} (h : choose l i = some x) : x ∈ l :=
  List.get?_mem h

/-- The fill loop never grows the selection past
`max sel.length replication_factor`. -/
theorem fillNodes_length_le (rf : Nat) : ∀ (rem sel : List Nat),
    (fillNodes rf sel rem).length ≤ max sel.length rf := by
  intro rem
  induction rem with
  | nil => intro sel; exact Nat.le_max_left _ _
  | cons n rest ih =>
    intro sel
    show (fillNodes rf sel (n :: rest)).length ≤ max sel.length rf
    unfold fillNodes
    by_cases h : sel.length < rf
    · rw [if_pos h]
      refine le_trans (ih (sel ++ [n])) ?_
      rw [List.length_append]
      refine Nat.max_le.mpr ⟨?_, Nat.le_max_right _ _⟩
      have : sel.length + 1 ≤ rf := h
      exact le_trans this (Nat.le_max_right _ _)
    · rw [if_neg h]
      exact Nat.le_max_left _ _

/-- The fill loop adds at most one element per remaining node. -/
theorem fillNodes_length_le_add (rf : Nat) : ∀ (rem sel : List Nat),
    (fillNodes rf sel rem).length ≤ sel.length + rem.length := by
  intro rem
  induction rem with
  | nil => intro sel; simp [fillNodes]
  | cons n rest ih =>
    intro sel
    show (fillNodes rf sel (n :: rest)).length ≤ sel.length + (n :: rest).length
    unfold fillNodes
    by_cases h : sel.length < rf
    · rw [if_pos h]
      refine le_trans (ih (sel ++ [n])) ?_
      rw [List.length_append]
      simp
      omega
    · rw [if_neg h]
      simp

/-- Filtering a list by a predicate and by its pointwise negation splits
its length. -/
theorem filter_length_partition (l : List Nat) (p q : Nat → Bool)
    (hpq : ∀ x, q x = !p x) :
    (l.filter p).length + (l.filter q).length = l.length := by
  have h := List.length_eq_length_filter_add (l := l) p
  have hq : l.filter q = l.filter (fun x => !p x) :=
    List.filter_congr (fun x _ => hpq x)
  rw [hq]
  omega

/-- Every node lands in exactly one of the preferred / other filters of
`select_copyset_dc_aware`, so their lengths add up to the node count. -/
theorem dc_partition_length (sel : CopySetSelector) (m : List (Nat × String))
    (pdc : String) :
    (dcPreferred sel m pdc).length + (dcOther sel m pdc).length
      = sel.all_nodes.length := by
  unfold dcPreferred dcOther
  refine filter_length_partition sel.all_nodes _ _ ?_
  intro x
  cases h : dcLookup m x with
  | none => simp [h]
  | some dc => simp [h, bne]

/-- Claim C9 (amended): `select_copyset` returns `None` when fewer nodes
than the replication factor are available, and any returned copyset has
exactly `replication_factor` nodes with its leader among them (for any
shuffle that permutes the node list and any leader choice). For
`select_copyset_dc_aware` the same size and leader-membership invariant
holds whenever `replication_factor ≥ 1`, and `None` is returned when
fewer nodes than the replication factor are available; with
`replication_factor = 0` the DC-aware variant can return a one-node
copyset (see the counterexample). -/
theorem C9_copyset_invariant :
    (∀ (sel : CopySetSelector) (shuffled : List Nat) (i : Nat),
      shuffled.Perm sel.all_nodes →
      (sel.all_nodes.length < sel.replication_factor →
        (sel.select_copyset shuffled i).1 = none) ∧
      (∀ cs, (sel.select_copyset shuffled i).1 = some cs →
        cs.size = sel.replication_factor ∧ cs.leader ∈ cs.nodes)) ∧
    (∀ (sel : CopySetSelector) (dcmap : List (Nat × String)) (pdc : String)
        (i1 : Nat) (σ : List Nat → List Nat) (i2 : Nat),
      (∀ l, (σ l).Perm l) →
      (1 ≤ sel.replication_factor →
        ∀ cs, sel.select_copyset_dc_aware dcmap pdc i1 σ i2 = some cs →
          cs.size = sel.replication_factor ∧ cs.leader ∈ cs.nodes) ∧
      (sel.all_nodes.length < sel.replication_factor →
        sel.select_copyset_dc_aware dcmap pdc i1 σ i2 = none)) := by
  constructor
  · intro sel shuffled i hperm
    constructor
    · intro hlt
      unfold CopySetSelector.select_copyset
      rw [if_pos hlt]
    · intro cs hcs
      unfold CopySetSelector.select_copyset at hcs
      by_cases hlt : sel.all_nodes.length < sel.replication_factor
      · rw [if_pos hlt] at hcs
        cases hcs
      · rw [if_neg hlt] at hcs
        simp only at hcs
        cases hch : choose
            ((shuffled.take sel.replication_factor).insertionSort (fun a b => a ≤ b)) i with
        | none =>
          rw [hch] at hcs
          cases hcs
        | some leader =>
          rw [hch] at hcs
          obtain rfl : CopySet.mk
              ((shuffled.take sel.replication_factor).insertionSort (fun a b => a ≤ b))
              leader = cs := by
            injection hcs
          constructor
          · show ((shuffled.take sel.replication_factor).insertionSort
              (fun a b => a ≤ b)).length = sel.replication_factor
            rw [(List.perm_insertionSort _ _).length_eq, List.length_take,
                hperm.length_eq]
            omega
          · exact choose_mem hch
  · intro sel dcmap pdc i1 σ i2 hσ
    have hsel0 : ∀ sel0 : List Nat,
        (if (dcPreferred sel dcmap pdc).isEmpty then some []
         else (choose (dcPreferred sel dcmap pdc) i1).map ([·])) = some sel0 →
        sel0.length ≤ 1 ∧ (sel0 = [] ∨ ∃ n ∈ dcPreferred sel dcmap pdc, sel0 = [n]) := by
      intro sel0 h0
      by_cases hp : (dcPreferred sel dcmap pdc).isEmpty
      · rw [if_pos hp] at h0
        obtain rfl : ([] : List Nat) = sel0 := by injection h0
        exact ⟨by simp, Or.inl rfl⟩
      · rw [if_neg hp] at h0
        obtain ⟨n, hn, hs⟩ := Option.map_eq_some'.mp h0
        subst hs
        exact ⟨by simp, Or.inr ⟨n, choose_mem hn, rfl⟩⟩
    constructor
    · intro hrf cs hcs
      unfold CopySetSelector.select_copyset_dc_aware at hcs
      cases h0 : (if (dcPreferred sel dcmap pdc).isEmpty then some []
          else (choose (dcPreferred sel dcmap pdc) i1).map ([·])) with
      | none =>
        rw [h0] at hcs
        cases hcs
      | some sel0 =>
        rw [h0] at hcs
        obtain ⟨hlen0, _⟩ := hsel0 sel0 h0
        replace hcs : dcFinish sel.replication_factor
            (fillNodes sel.replication_factor sel0
              (σ ((dcPreferred sel dcmap pdc ++ dcOther sel dcmap pdc).filter
                (fun n => !sel0.contains n)))) i2 = some cs := hcs
        unfold dcFinish at hcs
        by_cases hshort : (fillNodes sel.replication_factor sel0
            (σ ((dcPreferred sel dcmap pdc ++ dcOther sel dcmap pdc).filter
              (fun n => !sel0.contains n)))).length < sel.replication_factor
        · rw [if_pos hshort] at hcs
          cases hcs
        · rw [if_neg hshort] at hcs
          cases hch : choose ((fillNodes sel.replication_factor sel0
              (σ ((dcPreferred sel dcmap pdc ++ dcOther sel dcmap pdc).filter
                (fun n => !sel0.contains n)))).insertionSort (fun a b => a ≤ b)) i2 with
          | none =>
            rw [hch] at hcs
            cases hcs
          | some leader =>
            rw [hch] at hcs
            obtain rfl : CopySet.mk ((fillNodes sel.replication_factor sel0
                (σ ((dcPreferred sel dcmap pdc ++ dcOther sel dcmap pdc).filter
                  (fun n => !sel0.contains n)))).insertionSort (fun a b => a ≤ b)) leader
                = cs := by
              injection hcs
            constructor
            · show ((fillNodes sel.replication_factor sel0 _).insertionSort
                (fun a b => a ≤ b)).length = sel.replication_factor
              rw [(List.perm_insertionSort _ _).length_eq]
              have hub := fillNodes_length_le sel.replication_factor
                (σ ((dcPreferred sel dcmap pdc ++ dcOther sel dcmap pdc).filter
                  (fun n => !sel0.contains n))) sel0
              have hmax : max sel0.length sel.replication_factor =
                  sel.replication_factor := by
                refine Nat.max_eq_right ?_
                omega
              omega
            · exact choose_mem hch
    · intro hlt
      unfold CopySetSelector.select_copyset_dc_aware
      cases h0 : (if (dcPreferred sel dcmap pdc).isEmpty then some []
          else (choose (dcPreferred sel dcmap pdc) i1).map ([·])) with
      | none => rfl
      | some sel0 =>
        obtain ⟨hlen0, hcases⟩ := hsel0 sel0 h0
        have hpo : (dcPreferred sel dcmap pdc).length + (dcOther sel dcmap pdc).length
            = sel.all_nodes.length := dc_partition_length sel dcmap pdc
        have hremlen : (σ ((dcPreferred sel dcmap pdc ++ dcOther sel dcmap pdc).filter
            (fun n => !sel0.contains n))).length + sel0.length
              ≤ sel.all_nodes.length := by
          rw [(hσ _).length_eq]
          rcases hcases with rfl | ⟨n, hn, rfl⟩
          · have hle := List.length_filter_le
              (fun n => !(([] : List Nat).contains n))
              (dcPreferred sel dcmap pdc ++ dcOther sel dcmap pdc)
            simp only [List.length_append] at hle
            simpa using le_trans hle (le_of_eq hpo)
          · have hdrop : (((dcPreferred sel dcmap pdc ++ dcOther sel dcmap pdc)).filter
                (fun m => !(([n] : List Nat).contains m))).length <
                (dcPreferred sel dcmap pdc ++ dcOther sel dcmap pdc).length := by
              refine List.length_filter_lt_length_iff_exists.mpr ?_
              exact ⟨n, List.mem_append_left _ hn, by simp⟩
            simp only [List.length_append] at hdrop
            simp only [List.length_singleton]
            omega
        have hshort : (fillNodes sel.replication_factor sel0
            (σ ((dcPreferred sel dcmap pdc ++ dcOther sel dcmap pdc).filter
              (fun n => !sel0.contains n)))).length < sel.replication_factor := by
          have hadd := fillNodes_length_le_add sel.replication_factor
            (σ ((dcPreferred sel dcmap pdc ++ dcOther sel dcmap pdc).filter
              (fun n => !sel0.contains n))) sel0
          omega
        show dcFinish sel.replication_factor
            (fillNodes sel.replication_factor sel0
              (σ ((dcPreferred sel dcmap pdc ++ dcOther sel dcmap pdc).filter
                (fun n => !sel0.contains n)))) i2 = none
        unfold dcFinish
        rw [if_pos hshort]

/-- `voteDecide` never changes the current term. -/
theorem voteDecide_term (s1 : NodeState) (req : VoteRequest) :
    (voteDecide s1 req).1.persistent.current_term = s1.persistent.current_term := by
  unfold voteDecide
  split_ifs <;> rfl

/-- `voteDecide` grants iff `voted_for` is free or the candidate and the
candidate's log is at least as up to date. -/
theorem voteDecide_grant_iff (s1 : NodeState) (req : VoteRequest) :
    (voteDecide s1 req).2.vote_granted = true ↔
      ((s1.persistent.voted_for = none ∨
        s1.persistent.voted_for = some req.candidate_id) ∧
       (req.last_log_term > s1.last_log_term ∨
        (req.last_log_term = s1.last_log_term ∧
         req.last_log_index ≥ s1.last_log_index))) := by
  unfold voteDecide
  split_ifs with hc
  · simpa using hc
  · simpa using hc

/-- A granted vote binds `voted_for` to the candidate. -/
theorem voteDecide_granted_votedFor {s1 : NodeState} {req : VoteRequest}
    (h : (voteDecide s1 req).2.vote_granted = true) :
    (voteDecide s1 req).1.persistent.voted_for = some req.candidate_id := by
  have hc : (s1.persistent.voted_for = none ∨
      s1.persistent.voted_for = some req.candidate_id) ∧
      (req.last_log_term > s1.last_log_term ∨
       (req.last_log_term = s1.last_log_term ∧
        req.last_log_index ≥ s1.last_log_index)) :=
    (voteDecide_grant_iff s1 req).mp h
  unfold voteDecide
  rw [if_pos hc]

/-- A vote already bound stays bound across `voteDecide`. -/
theorem voteDecide_votedFor_stable {s1 : NodeState} {req : VoteRequest} {c : Nat}
    (h : s1.persistent.voted_for = some c) :
    (voteDecide s1 req).1.persistent.voted_for = some c := by
  unfold voteDecide
  split_ifs with hc
  · obtain ⟨hv, _⟩ := hc
    rcases hv with hv | hv
    · rw [h] at hv
      cases hv
    · rw [h] at hv
      obtain rfl : c = req.candidate_id := by injection hv
      rfl
  · exact h

/-- `handle_vote_request` never lowers the current term. -/
theorem hvr_term_mono (s : NodeState) (req : VoteRequest) :
    s.persistent.current_term ≤
      (RaftNode.handle_vote_request s req).1.persistent.current_term := by
  unfold RaftNode.handle_vote_request
  split_ifs with h1 h2
  · exact le_refl _
  · rw [voteDecide_term]
    show s.persistent.current_term ≤ (s.become_follower req.term).persistent.current_term
    exact le_of_lt h2
  · rw [voteDecide_term]

/-- A granted vote binds the resulting state to the candidate. -/
theorem hvr_granted_votedFor {s : NodeState} {req : VoteRequest}
    (h : (RaftNode.handle_vote_request s req).2.vote_granted = true) :
    (RaftNode.handle_vote_request s req).1.persistent.voted_for =
      some req.candidate_id := by
  unfold RaftNode.handle_vote_request at h ⊢
  by_cases h1 : req.term < s.persistent.current_term
  · rw [if_pos h1] at h
    cases h
  · rw [if_neg h1] at h ⊢
    exact voteDecide_granted_votedFor h

/-- The `votedProp` invariant survives any vote request. -/
theorem hvr_votedProp_stable {t c : Nat} {s : NodeState} (req : VoteRequest)
    (h : votedProp t c s) : votedProp t c (RaftNode.handle_vote_request s req).1 := by
  unfold RaftNode.handle_vote_request
  split_ifs with h1 h2
  · exact h
  · left
    rw [voteDecide_term]
    show t < (s.become_follower req.term).persistent.current_term
    rcases h with hlt | ⟨heq, _⟩
    · exact lt_trans hlt h2
    · rw [heq]
      exact h2
  · rcases h with hlt | ⟨heq, hvf⟩
    · left
      rw [voteDecide_term]
      exact hlt
    · right
      rw [voteDecide_term]
      exact ⟨heq, voteDecide_votedFor_stable hvf⟩

/-- The `votedProp` invariant survives any run of vote requests. -/
theorem pv_votedProp_stable {t c : Nat} : ∀ (rs : List VoteRequest) (s : NodeState),
    votedProp t c s → votedProp t c (processVotes s rs).1 := by
  intro rs
  induction rs with
  | nil => intro s h; exact h
  | cons r rest ih =>
    intro s h
    exact ih _ (hvr_votedProp_stable r h)

/-- Once the invariant holds for (t, c), every later grant at term `t`
goes to candidate `c`. -/
theorem pv_once {t c : Nat} : ∀ (rs : List VoteRequest) (s : NodeState),
    votedProp t c s →
    ∀ p ∈ (processVotes s rs).2, p.1 = t → p.2 = c := by
  intro rs
  induction rs with
  | nil => intro s _ p hp; cases hp
  | cons r rest ih =>
    intro s h p hp hpt
    have hstep : votedProp t c (RaftNode.handle_vote_request s r).1 :=
      hvr_votedProp_stable r h
    show p.2 = c
    have hp2 : p ∈ (if (RaftNode.handle_vote_request s r).2.vote_granted then
        [((RaftNode.handle_vote_request s r).1.persistent.current_term, r.candidate_id)]
        else []) ++ (processVotes (RaftNode.handle_vote_request s r).1 rest).2 := hp
    rcases List.mem_append.mp hp2 with hnow | hlater
    · by_cases hg : (RaftNode.handle_vote_request s r).2.vote_granted
      · rw [if_pos hg] at hnow
        obtain rfl : p =
            ((RaftNode.handle_vote_request s r).1.persistent.current_term,
             r.candidate_id) := by simpa using hnow
        rcases hstep with hlt | ⟨_, hvf⟩
        · exfalso
          rw [← hpt] at hlt
          exact lt_irrefl _ hlt
        · have := hvr_granted_votedFor hg
          rw [hvf] at this
          injection this with h2
          exact h2.symm
      · rw [if_neg hg] at hnow
        cases hnow
    · exact ih _ hstep p hlater hpt

/-- Claim C5: `handle_vote_request` grants a vote iff the request's term
is not below the node's current term, `voted_for` — after being cleared
by a strictly higher incoming term — is free or already the candidate,
and the candidate's (last_log_term, last_log_index) is lexicographically
at least the receiver's; consequently, over any sequence of vote
requests, all grants made at one term go to a single candidate. -/
theorem C5_vote_grant :
    (∀ (s : NodeState) (req : VoteRequest),
      (RaftNode.handle_vote_request s req).2.vote_granted = true ↔
        (¬ req.term < s.persistent.current_term ∧
         ((if req.term > s.persistent.current_term then none else s.persistent.voted_for)
            = none ∨
          (if req.term > s.persistent.current_term then none else s.persistent.voted_for)
            = some req.candidate_id) ∧
         lexGe (req.last_log_term, req.last_log_index)
           (s.last_log_term, s.last_log_index))) ∧
    (∀ (s : NodeState) (rs : List VoteRequest) (p q : Nat × Nat),
      p ∈ (processVotes s rs).2 → q ∈ (processVotes s rs).2 →
      p.1 = q.1 → p.2 = q.2) := by
  constructor
  · intro s req
    unfold RaftNode.handle_vote_request
    by_cases h1 : req.term < s.persistent.current_term
    · have h2 : ¬ req.term > s.persistent.current_term := by omega
      rw [if_pos h1, if_neg h2]
      simp [h1]
    · rw [if_neg h1]
      by_cases h2 : req.term > s.persistent.current_term
      · rw [if_pos h2, if_pos h2, voteDecide_grant_iff]
        have hlt : (s.become_follower req.term).last_log_term = s.last_log_term := rfl
        have hli : (s.become_follower req.term).last_log_index = s.last_log_index := rfl
        have hvf : (s.become_follower req.term).persistent.voted_for = none := rfl
        rw [hlt, hli, hvf]
        simp only [lexGe, h1, not_false_iff, true_and, ge_iff_le, gt_iff_lt]
      · rw [if_neg h2, if_neg h2, voteDecide_grant_iff]
        simp only [lexGe, h1, not_false_iff, true_and, ge_iff_le, gt_iff_lt]
  · intro s rs
    induction rs generalizing s with
    | nil => intro p q hp; cases hp
    | cons r rest ih =>
      intro p q hp hq hpq
      have hp2 : p ∈ (if (RaftNode.handle_vote_request s r).2.vote_granted then
          [((RaftNode.handle_vote_request s r).1.persistent.current_term, r.candidate_id)]
          else []) ++ (processVotes (RaftNode.handle_vote_request s r).1 rest).2 := hp
      have hq2 : q ∈ (if (RaftNode.handle_vote_request s r).2.vote_granted then
          [((RaftNode.handle_vote_request s r).1.persistent.current_term, r.candidate_id)]
          else []) ++ (processVotes (RaftNode.handle_vote_request s r).1 rest).2 := hq
      rcases List.mem_append.mp hp2 with hpn | hpl <;>
        rcases List.mem_append.mp hq2 with hqn | hql
      · -- both are the grant of the head request
        by_cases hg : (RaftNode.handle_vote_request s r).2.vote_granted
        · rw [if_pos hg] at hpn hqn
          have hpe := List.mem_singleton.mp hpn
          have hqe := List.mem_singleton.mp hqn
          rw [hpe, hqe]
        · rw [if_neg hg] at hpn
          cases hpn
      · -- p from the head grant, q from the tail run
        by_cases hg : (RaftNode.handle_vote_request s r).2.vote_granted
        · rw [if_pos hg] at hpn
          obtain rfl : p =
              ((RaftNode.handle_vote_request s r).1.persistent.current_term,
               r.candidate_id) := by simpa using hpn
          have hinv : votedProp (RaftNode.handle_vote_request s r).1.persistent.current_term
              r.candidate_id (RaftNode.handle_vote_request s r).1 :=
            Or.inr ⟨rfl, hvr_granted_votedFor hg⟩
          exact (pv_once rest _ hinv q hql hpq.symm).symm
        · rw [if_neg hg] at hpn
          cases hpn
      · -- q from the head grant, p from the tail run
        by_cases hg : (RaftNode.handle_vote_request s r).2.vote_granted
        · rw [if_pos hg] at hqn
          obtain rfl : q =
              ((RaftNode.handle_vote_request s r).1.persistent.current_term,
               r.candidate_id) := by simpa using hqn
          have hinv : votedProp (RaftNode.handle_vote_request s r).1.persistent.current_term
              r.candidate_id (RaftNode.handle_vote_request s r).1 :=
            Or.inr ⟨rfl, hvr_granted_votedFor hg⟩
          exact pv_once rest _ hinv p hpl hpq
        · rw [if_neg hg] at hqn
          cases hqn
      · exact ih _ p q hpl hql hpq

/-- Witness for C5: the concrete node `c5State` grants the vote to
candidate 7, and in the run [c5Req, c5Req] both grants at term 2 name
the same candidate. -/
theorem C5_witness :
    (RaftNode.handle_vote_request c5State c5Req).2.vote_granted = true ∧
    ((2, 7) : Nat × Nat).2 = ((2, 7) : Nat × Nat).2 :=
  ⟨(C5_vote_grant.1 c5State c5Req).mpr (by decide),
   C5_vote_grant.2 c5State [c5Req, c5Req] (2, 7) (2, 7) (by decide) (by decide) rfl⟩

/-- Witness for C9 at the concrete selectors `c9Wit` (enough nodes) and
`c9WitSmall` (too few nodes). -/
theorem C9_witness :
    ((⟨[3, 4, 5], 4⟩ : CopySet).size = c9Wit.replication_factor ∧
      (4 : Nat) ∈ ([3, 4, 5] : List Nat)) ∧
    c9WitSmall.select_copyset_dc_aware [] "a" 0 id 0 = none := by
  refine ⟨(C9_copyset_invariant.1 c9Wit [5, 4, 3, 2, 1] 7 (by decide)).2 ⟨[3, 4, 5], 4⟩ rfl,
    (C9_copyset_invariant.2 c9WitSmall [] "a" 0 id 0 (fun l => List.Perm.refl l)).2
      (by decide)⟩

end Pyralog
